import Mathlib

/-!
Shallow embedding of `src/crud_multiversx/src/main.rs`: a minimal HTTP CRUD
service over an in-memory map from numeric identifiers to `Person` records.

The `HashMap<u64, Person>` behind `Arc<Mutex<...>>` is modelled as an
association list with map semantics (`Store.get?` returns the first binding;
the insert used below removes any previous binding for the key, so keys stay
unique).  Requests are modelled after the point where the external
collaborators of the spec (HTTP parser, JSON codec) have done their work: a
request carries the method, the raw path, and the result of
`serde_json::from_slice` on the body (`none` when decoding fails).

Identifiers are `u64` in the source.  They are modelled as `Nat`: the source
performs a single `+ 1` on the maximum existing key, whose overflow is a
debug-mode panic in Rust rather than a defined wrap, and the spec states
that overflow of the 64-bit identifier space is not handled; no reachable
behaviour below depends on wrap-around.  `age` is `u32`, likewise carried as
a `Nat` (the router never computes on it).  The one place 64-bit bounds are
observable — `str::parse::<u64>` rejecting an over-large id token — checks
the bound explicitly.
-/

/-- `struct Person { id: u64, name: String, age: u32 }`. -/
structure Person where
  id : Nat
  name : String
  age : Nat
deriving DecidableEq, Repr

/-- The in-memory map `HashMap<u64, Person>`, as an association list. -/
abbrev Store : Type := List (Nat × Person)

/-- `db.get(&k)` / first binding of key `k`. -/
def Store.get? (db : Store) (k : Nat) : Option Person :=
  match db with
  | [] => none
  | (k2, p) :: rest => if k2 = k then some p else Store.get? rest k

/-- `db.remove(&k)`: drop every binding of key `k` (there is at most one). -/
def Store.eraseKey (k : Nat) (db : Store) : Store :=
  match db with
  | [] => []
  | (k2, p) :: rest =>
      if k2 = k then Store.eraseKey k rest else (k2, p) :: Store.eraseKey k rest

/-- `db.insert(k, v)`: bind `k` to `v`, replacing any previous binding. -/
def Store.insert (k : Nat) (v : Person) (db : Store) : Store :=
  (k, v) :: Store.eraseKey k db

/-- `db.is_empty()`. -/
def Store.isEmpty (db : Store) : Bool :=
  match db with
  | [] => true
  | _ :: _ => false

/-- `db.keys().max()` over `Nat` keys, with `0` on the empty store (the
source only calls it on a non-empty store, where the two agree). -/
def Store.maxKey (db : Store) : Nat :=
  match db with
  | [] => 0
  | (k, _) :: rest => max k (Store.maxKey rest)

/-- `db.values()`, the snapshot serialized by `GET /persons`. -/
def Store.values (db : Store) : List Person :=
  db.map Prod.snd

/-- `db.keys()`. -/
def Store.keys (db : Store) : List Nat :=
  db.map Prod.fst

/-- The identifier allocation of the `POST /persons` arm:
`if db_lock.is_empty() { 1 } else { db_lock.keys().max().unwrap() + 1 }`. -/
def nextId (db : Store) : Nat :=
  if db.isEmpty then 1 else db.maxKey + 1

/-- The body of the `POST /persons` arm after a successful decode:
overwrite `new_person.id` with the allocated id, insert, and return the
stored record together with the new store. -/
def allocateAndInsert (db : Store) (draft : Person) : Person × Store :=
  let newId := nextId db
  let p := { draft with id := newId }
  (p, db.insert newId p)

/-- The body of the `PUT /persons/{id}` arm after id and body decode:
`get_mut`, assign `name` and `age`, return the updated record; `none` when
the id is absent. -/
def storeUpdate (db : Store) (idv : Nat) (patch : Person) : Option Person × Store :=
  match db.get? idv with
  | some person =>
      let p := { person with name := patch.name, age := patch.age }
      (some p, db.insert idv p)
  | none => (none, db)

/-- The body of the `DELETE /persons/{id}` arm: `remove`, reporting whether
an entry was present. -/
def storeDelete (db : Store) (idv : Nat) : Bool × Store :=
  match db.get? idv with
  | some _ => (true, Store.eraseKey idv db)
  | none => (false, db)

/-! ### Path handling

`path.trim_start_matches("/persons/")` repeatedly removes the pattern from
the front of the string; `id_str.parse::<u64>()` accepts an optional leading
`+` followed by one or more ASCII digits whose value fits in 64 bits. -/

/-- Drop `pre` from the front of `s`, or `none` when `s` does not start
with `pre` (the test behind Rust's `starts_with`). -/
def dropPre (pre s : List Char) : Option (List Char) :=
  match pre, s with
  | [], s => some s
  | _ :: _, [] => none
  | p :: ps, c :: cs => if p = c then dropPre ps cs else none

/-- The pattern `"/persons/"`. -/
def personsPre : List Char := "/persons/".data

/-- `path.starts_with("/persons/")`. -/
def startsWithPersons (path : String) : Bool :=
  (dropPre personsPre path.data).isSome

/-- Fuel-driven loop behind `trim_start_matches`: remove leading occurrences
of `"/persons/"` while fuel lasts.  Each removal drops nine characters, so
`s.length` is always enough fuel; `trimStartMatches_stripped` below checks
that the result indeed no longer starts with the pattern. -/
def trimAux : Nat → List Char → List Char
  | 0, s => s
  | fuel + 1, s =>
      match dropPre personsPre s with
      | some s2 => trimAux fuel s2
      | none => s

/-- Rust `str::trim_start_matches("/persons/")`: remove every leading
occurrence of the pattern. -/
def trimStartMatches (s : List Char) : List Char :=
  trimAux s.length s

/-- `path.trim_start_matches("/persons/")`: the identifier token of an item
path. -/
def idToken (path : String) : List Char :=
  trimStartMatches path.data

/-- `id_str.parse::<u64>()`: optional leading `'+'`, then one or more ASCII
digits, value at most `2 ^ 64 - 1` (larger values overflow the checked
accumulation and yield `Err`). -/
def parseU64 (s : List Char) : Option Nat :=
  let ds := if s.head? = some '+' then s.tail else s
  if ds ≠ [] ∧ ds.all (fun c => c.isDigit) then
    let v := ds.foldl (fun a c => a * 10 + (c.toNat - 48)) 0
    if v < 2 ^ 64 then some v else none
  else none

/-! ### The router -/

/-- HTTP methods the router distinguishes (`hyper::Method`). -/
inductive Method where
  | GET
  | POST
  | PUT
  | DELETE
  | OTHER
deriving DecidableEq, Repr

/-- A request as the router sees it: method, path, and the result of JSON
decoding of the (fully read) body — `none` when `serde_json::from_slice`
fails or when the request has no usable body. -/
structure Request where
  method : Method
  path : String
  body : Option Person
deriving DecidableEq, Repr

/-- Response bodies: a serialized record, a serialized array, or one of the
literal diagnostic strings. -/
inductive RespBody where
  | person (p : Person)
  | list (l : List Person)
  | text (s : String)
deriving DecidableEq, Repr

/-- An HTTP response: status code and body. -/
structure Resp where
  status : Nat
  body : RespBody
deriving DecidableEq, Repr

/-- `async fn router(req, db)`: the match over `(method, path)` of the
source, in source order, returning the response together with the store
after the request (the store argument standing for the contents of the
`Mutex`). -/
def router (req : Request) (db : Store) : Resp × Store :=
  if req.method = Method.POST ∧ req.path = "/persons" then
    match req.body with
    | none => (⟨400, RespBody.text "JSON inválido"⟩, db)
    | some draft =>
        let r := allocateAndInsert db draft
        (⟨200, RespBody.person r.1⟩, r.2)
  else if req.method = Method.GET ∧ req.path = "/persons" then
    (⟨200, RespBody.list db.values⟩, db)
  else if req.method = Method.GET ∧ startsWithPersons req.path then
    match parseU64 (idToken req.path) with
    | some idv =>
        match db.get? idv with
        | some person => (⟨200, RespBody.person person⟩, db)
        | none => (⟨404, RespBody.text "Pessoa não encontrada"⟩, db)
    | none => (⟨400, RespBody.text "ID inválido"⟩, db)
  else if req.method = Method.PUT ∧ startsWithPersons req.path then
    match parseU64 (idToken req.path) with
    | some idv =>
        match req.body with
        | none => (⟨400, RespBody.text "JSON inválido"⟩, db)
        | some patch =>
            match storeUpdate db idv patch with
            | (some p, db2) => (⟨200, RespBody.person p⟩, db2)
            | (none, db2) => (⟨404, RespBody.text "Pessoa não encontrada"⟩, db2)
    | none => (⟨400, RespBody.text "ID inválido"⟩, db)
  else if req.method = Method.DELETE ∧ startsWithPersons req.path then
    match parseU64 (idToken req.path) with
    | some idv =>
        match storeDelete db idv with
        | (true, db2) => (⟨200, RespBody.text "Pessoa removida"⟩, db2)
        | (false, db2) => (⟨404, RespBody.text "Pessoa não encontrada"⟩, db2)
    | none => (⟨400, RespBody.text "ID inválido"⟩, db)
  else
    (⟨404, RespBody.text "Rota não encontrada"⟩, db)

/-! ### Operation sequences (store-level semantics of the three mutating
requests, used for the state-evolution claims) -/

/-- One mutating operation against the store. -/
inductive Op where
  | create (draft : Person)
  | update (idv : Nat) (patch : Person)
  | remove (idv : Nat)
deriving DecidableEq, Repr

/-- The store after one operation. -/
def applyOp (db : Store) : Op → Store
  | Op.create d => (allocateAndInsert db d).2
  | Op.update i p => (storeUpdate db i p).2
  | Op.remove i => (storeDelete db i).2

/-- The store after a sequence of operations from the empty store. -/
def runOps (ops : List Op) : Store :=
  ops.foldl applyOp []

/-- Serial creates: the list of returned records and the final store. -/
def runCreates (db : Store) : List Person → List Person × Store
  | [] => ([], db)
  | p :: rest =>
      let r := allocateAndInsert db p
      let rs := runCreates r.2 rest
      (r.1 :: rs.1, rs.2)

/-- Every entry's key equals its value's `id` field and is strictly
positive. -/
def goodStore (db : Store) : Prop :=
  ∀ kp ∈ db, (kp : Nat × Person).2.id = kp.1 ∧ 0 < kp.1

/-- `db` is empty with running maximum `0`, or non-empty with maximum `m`.
This is the shape of the store a chain of creates threads through. -/
def MaxSt (db : Store) (m : Nat) : Prop :=
  (m = 0 ∧ db = []) ∨ (db ≠ [] ∧ db.maxKey = m)

/-- The returned records of a chain of creates starting at running maximum
`m`: the inputs with `id` overwritten by `m+1, m+2, …`. -/
def idsFrom (m : Nat) : List Person → List Person
  | [] => []
  | p :: rest => { p with id := m + 1 } :: idsFrom (m + 1) rest

/-! ### Concrete fixtures (used by witnesses and the literal scenarios) -/

/-- A concrete draft whose client-supplied id is deliberately non-zero. -/
def wAda : Person := ⟨5, "Ada", 37⟩

/-- A store holding the single record with id `1`. -/
def dbAda : Store := [(1, ⟨1, "Ada", 37⟩)]

/-- A store holding records with ids `1` and `2`. -/
def dbTwo : Store := [(1, ⟨1, "Ada", 37⟩), (2, ⟨2, "B", 1⟩)]

/-- Concrete create inputs, distinguished by `age`. -/
def pIn (n : Nat) : Person := ⟨0, "p", n⟩

/-- Scenario S6: store after creating three persons (ids 1, 2, 3). -/
def s6col : Store := (runCreates [] [pIn 1, pIn 2, pIn 3]).2

/-- Scenario S6: after `DELETE /persons/2`. -/
def s6afterDel2 : Store := (storeDelete s6col 2).2

/-- Scenario S6: the fourth create (expected id 4). -/
def s6r4 : Person × Store := allocateAndInsert s6afterDel2 (pIn 4)

/-- Scenario S6: after `DELETE /persons/4`. -/
def s6afterDel4 : Store := (storeDelete s6r4.2 4).2

/-- Scenario S6: the fifth create (expected id 4 again). -/
def s6r5 : Person × Store := allocateAndInsert s6afterDel4 (pIn 5)

/-! ### Basic facts about the store -/

theorem get?_mem (db : Store) (k : Nat) (p : Person) (h : db.get? k = some p) :
    (k, p) ∈ db := by
  induction db with
  | nil => simp [Store.get?] at h
  | cons kp rest ih =>
      obtain ⟨k2, q⟩ := kp
      by_cases hk : k2 = k
      · subst hk
        simp [Store.get?] at h
        subst h
        exact List.mem_cons_self _ _
      · simp [Store.get?, hk] at h
        exact List.mem_cons_of_mem _ (ih h)

theorem mem_of_mem_eraseKey (db : Store) (d : Nat) (kp : Nat × Person)
    (h : kp ∈ Store.eraseKey d db) : kp ∈ db := by
  induction db with
  | nil => exact h
  | cons hd rest ih =>
      obtain ⟨k2, q⟩ := hd
      by_cases hk : k2 = d
      · simp only [Store.eraseKey, if_pos hk] at h
        exact List.mem_cons_of_mem _ (ih h)
      · simp only [Store.eraseKey, if_neg hk] at h
        rcases List.mem_cons.mp h with he | hm
        · simp [he]
        · exact List.mem_cons_of_mem _ (ih hm)

theorem mem_eraseKey_of_mem (db : Store) (d : Nat) (kp : Nat × Person)
    (h : kp ∈ db) (hne : kp.1 ≠ d) : kp ∈ Store.eraseKey d db := by
  induction db with
  | nil => simp at h
  | cons hd rest ih =>
      obtain ⟨k2, q⟩ := hd
      rcases List.mem_cons.mp h with he | hm
      · subst he
        simp only [Store.eraseKey, if_neg hne]
        exact List.mem_cons_self _ _
      · by_cases hk : k2 = d
        · simp only [Store.eraseKey, if_pos hk]
          exact ih hm
        · simp only [Store.eraseKey, if_neg hk]
          exact List.mem_cons_of_mem _ (ih hm)

theorem get?_eraseKey_ne (db : Store) (d k : Nat) (hne : k ≠ d) :
    (Store.eraseKey d db).get? k = db.get? k := by
  induction db with
  | nil => rfl
  | cons hd rest ih =>
      obtain ⟨k2, q⟩ := hd
      by_cases hk : k2 = d
      · have h2 : k2 ≠ k := by
          rw [hk]
          exact fun h => hne h.symm
        simp only [Store.eraseKey, if_pos hk]
        rw [ih]
        simp [Store.get?, h2]
      · simp only [Store.eraseKey, if_neg hk]
        by_cases h2 : k2 = k
        · simp [Store.get?, h2]
        · simp [Store.get?, h2, ih]

theorem get?_insert_self (db : Store) (k : Nat) (v : Person) :
    (db.insert k v).get? k = some v := by
  simp [Store.insert, Store.get?]

theorem get?_insert_ne (db : Store) (k k2 : Nat) (v : Person) (hne : k2 ≠ k) :
    (db.insert k v).get? k2 = db.get? k2 := by
  have : ¬ (k = k2) := fun h => hne h.symm
  simp [Store.insert, Store.get?, this, get?_eraseKey_ne db k k2 hne]

theorem le_maxKey_of_mem (db : Store) (kp : Nat × Person) (h : kp ∈ db) :
    kp.1 ≤ db.maxKey := by
  induction db with
  | nil => simp at h
  | cons hd rest ih =>
      obtain ⟨k2, q⟩ := hd
      rcases List.mem_cons.mp h with he | hm
      · subst he
        exact le_max_left _ _
      · exact le_trans (ih hm) (le_max_right _ _)

theorem exists_maxKey_mem (db : Store) (hne : db ≠ []) :
    ∃ p, (db.maxKey, p) ∈ db := by
  induction db with
  | nil => exact absurd rfl hne
  | cons hd rest ih =>
      obtain ⟨k2, q⟩ := hd
      by_cases hr : rest = []
      · subst hr
        refine ⟨q, ?_⟩
        simp [Store.maxKey]
      · obtain ⟨p, hp⟩ := ih hr
        by_cases hle : Store.maxKey rest ≤ k2
        · refine ⟨q, ?_⟩
          have : Store.maxKey ((k2, q) :: rest) = k2 := by
            simp [Store.maxKey, max_eq_left hle]
          rw [this]
          exact List.mem_cons_self _ _
        · refine ⟨p, ?_⟩
          have : Store.maxKey ((k2, q) :: rest) = Store.maxKey rest := by
            simp [Store.maxKey, max_eq_right (le_of_lt (lt_of_not_le hle))]
          rw [this]
          exact List.mem_cons_of_mem _ hp

theorem maxKey_eraseKey_le (db : Store) (d : Nat) :
    (Store.eraseKey d db).maxKey ≤ db.maxKey := by
  induction db with
  | nil => simp [Store.eraseKey]
  | cons hd rest ih =>
      obtain ⟨k2, q⟩ := hd
      by_cases hk : k2 = d
      · simp only [Store.eraseKey, if_pos hk]
        exact le_trans ih (le_max_right _ _)
      · simp only [Store.eraseKey, if_neg hk, Store.maxKey]
        exact max_le_max (le_refl k2) ih

theorem maxKey_eraseKey_of_lt (db : Store) (d : Nat) (hlt : d < db.maxKey) :
    (Store.eraseKey d db).maxKey = db.maxKey := by
  refine le_antisymm (maxKey_eraseKey_le db d) ?_
  have hne : db ≠ [] := by
    intro h
    subst h
    simp [Store.maxKey] at hlt
  obtain ⟨p, hp⟩ := exists_maxKey_mem db hne
  have hkd : (db.maxKey, p).1 ≠ d := fun h => absurd hlt (by simp [← h])
  have hmem : (db.maxKey, p) ∈ Store.eraseKey d db := mem_eraseKey_of_mem db d _ hp hkd
  exact le_maxKey_of_mem _ _ hmem

theorem eraseKey_ne_nil_of_lt (db : Store) (d : Nat) (hlt : d < db.maxKey) :
    Store.eraseKey d db ≠ [] := by
  have hne : db ≠ [] := by
    intro h
    subst h
    simp [Store.maxKey] at hlt
  obtain ⟨p, hp⟩ := exists_maxKey_mem db hne
  have hkd : (db.maxKey, p).1 ≠ d := fun h => absurd hlt (by simp [← h])
  have hmem : (db.maxKey, p) ∈ Store.eraseKey d db := mem_eraseKey_of_mem db d _ hp hkd
  intro h
  rw [h] at hmem
  exact absurd hmem (List.not_mem_nil _)

theorem isEmpty_eq_false (db : Store) (hne : db ≠ []) : db.isEmpty = false := by
  cases db with
  | nil => exact absurd rfl hne
  | cons hd rest => rfl

theorem one_le_nextId (db : Store) : 1 ≤ nextId db := by
  unfold nextId
  by_cases h : db.isEmpty <;> simp [h]

/-! ### The store invariant (key = value's id, keys strictly positive) -/

theorem goodStore_nil : goodStore [] := by
  intro kp h
  exact absurd h (List.not_mem_nil _)

theorem goodStore_eraseKey (db : Store) (d : Nat) (h : goodStore db) :
    goodStore (Store.eraseKey d db) := by
  intro kp hm
  exact h kp (mem_of_mem_eraseKey db d kp hm)

theorem goodStore_insert (db : Store) (k : Nat) (v : Person)
    (h : goodStore db) (hid : v.id = k) (hpos : 0 < k) :
    goodStore (db.insert k v) := by
  intro kp hm
  rcases List.mem_cons.mp hm with he | hm2
  · subst he
    exact ⟨hid, hpos⟩
  · exact goodStore_eraseKey db k h kp hm2

theorem goodStore_applyOp (db : Store) (op : Op) (h : goodStore db) :
    goodStore (applyOp db op) := by
  cases op with
  | create d =>
      simp only [applyOp, allocateAndInsert]
      exact goodStore_insert db (nextId db) _ h rfl (one_le_nextId db)
  | update i p =>
      simp only [applyOp, storeUpdate]
      cases hg : db.get? i with
      | none => exact h
      | some person =>
          have hmem := get?_mem db i person hg
          obtain ⟨hid, hpos⟩ := h (i, person) hmem
          exact goodStore_insert db i _ h hid hpos
  | remove i =>
      simp only [applyOp, storeDelete]
      cases hg : db.get? i with
      | none => exact h
      | some person => exact goodStore_eraseKey db i h

theorem goodStore_foldl (ops : List Op) :
    ∀ db, goodStore db → goodStore (ops.foldl applyOp db) := by
  induction ops with
  | nil => intro db h; exact h
  | cons op rest ih =>
      intro db h
      exact ih (applyOp db op) (goodStore_applyOp db op h)

/-! ### Serial creates -/

theorem maxSt_nextId (db : Store) (m : Nat) (h : MaxSt db m) :
    nextId db = m + 1 := by
  rcases h with ⟨hm, hdb⟩ | ⟨hdb, hm⟩
  · subst hdb
    subst hm
    rfl
  · unfold nextId
    rw [isEmpty_eq_false db hdb]
    simp [hm]

theorem maxSt_allocate (db : Store) (m : Nat) (p : Person) (h : MaxSt db m) :
    MaxSt (allocateAndInsert db p).2 (m + 1) := by
  have hnext := maxSt_nextId db m h
  right
  constructor
  · simp [allocateAndInsert, Store.insert]
  · have herase : (Store.eraseKey (nextId db) db).maxKey ≤ m := by
      rcases h with ⟨hm, hdb⟩ | ⟨hdb, hm⟩
      · subst hdb
        simp [Store.eraseKey, Store.maxKey, hm]
      · rw [← hm]
        exact maxKey_eraseKey_le db (nextId db)
    simp only [allocateAndInsert, Store.insert, Store.maxKey, hnext]
    rw [hnext] at herase
    omega

theorem runCreates_eq_idsFrom (ps : List Person) :
    ∀ db m, MaxSt db m → (runCreates db ps).1 = idsFrom m ps := by
  induction ps with
  | nil => intro db m _; rfl
  | cons p rest ih =>
      intro db m h
      have hnext := maxSt_nextId db m h
      have hstep := maxSt_allocate db m p h
      have htail := ih (allocateAndInsert db p).2 (m + 1) hstep
      simp only [runCreates, htail]
      simp [idsFrom, allocateAndInsert, hnext]

theorem idsFrom_get? (ps : List Person) :
    ∀ m i p, ps.get? i = some p →
      (idsFrom m ps).get? i = some { p with id := m + i + 1 } := by
  induction ps with
  | nil => intro m i p h; simp at h
  | cons q rest ih =>
      intro m i p h
      cases i with
      | zero =>
          simp at h
          subst h
          rfl
      | succ i =>
          simp only [List.get?] at h
          have := ih (m + 1) i p h
          simp only [idsFrom, List.get?, this]
          congr 2
          omega

theorem idsFrom_length (ps : List Person) : ∀ m, (idsFrom m ps).length = ps.length := by
  induction ps with
  | nil => intro m; rfl
  | cons q rest ih =>
      intro m
      simp [idsFrom, ih]

/-- Every record returned by a chain of creates on a non-empty store has an
id strictly above the store's maximum key. -/
theorem runCreates_id_gt (ps : List Person) :
    ∀ db, db ≠ [] → ∀ r ∈ (runCreates db ps).1, Store.maxKey db < r.id := by
  induction ps with
  | nil =>
      intro db _ r hr
      exact absurd hr (List.not_mem_nil _)
  | cons p rest ih =>
      intro db hne r hr
      have hnext : nextId db = Store.maxKey db + 1 := by
        simp [nextId, isEmpty_eq_false db hne]
      have hr2 : r = (allocateAndInsert db p).1 ∨
          r ∈ (runCreates (allocateAndInsert db p).2 rest).1 := by
        simpa [runCreates] using hr
      rcases hr2 with he | hm
      · subst he
        simp [allocateAndInsert, hnext]
      · have hne2 : (allocateAndInsert db p).2 ≠ [] := by
          simp [allocateAndInsert, Store.insert]
        have hmax2 : Store.maxKey db < Store.maxKey (allocateAndInsert db p).2 := by
          have hle := maxKey_eraseKey_le db (nextId db)
          simp only [allocateAndInsert, Store.insert, Store.maxKey, hnext]
          omega
        exact lt_trans hmax2 (ih _ hne2 r hm)

/-! ### Facts about the path parser -/

theorem dropPre_length (pre : List Char) :
    ∀ s s2, dropPre pre s = some s2 → s.length = pre.length + s2.length := by
  induction pre with
  | nil =>
      intro s s2 h
      simp [dropPre] at h
      simp [h]
  | cons p ps ih =>
      intro s s2 h
      match s with
      | [] => simp [dropPre] at h
      | c :: cs =>
          by_cases hpc : p = c
          · simp [dropPre, hpc] at h
            have := ih cs s2 h
            simp [List.length_cons, this]
            omega
          · simp [dropPre, hpc] at h

theorem trimAux_congr :
    ∀ f1 f2 s, s.length ≤ f1 → s.length ≤ f2 → trimAux f1 s = trimAux f2 s := by
  intro f1
  induction f1 with
  | zero =>
      intro f2 s h1 _
      have hs : s = [] := List.eq_nil_of_length_eq_zero (Nat.le_zero.mp h1)
      subst hs
      cases f2 with
      | zero => rfl
      | succ f2 => simp [trimAux, dropPre, personsPre]
  | succ f1 ih =>
      intro f2 s h1 h2
      cases hd : dropPre personsPre s with
      | none =>
          cases f2 with
          | zero =>
              have hs : s = [] := List.eq_nil_of_length_eq_zero (Nat.le_zero.mp h2)
              subst hs
              simp [trimAux, hd]
          | succ f2 => simp [trimAux, hd]
      | some s2 =>
          have hlen := dropPre_length personsPre s s2 hd
          have h9 : personsPre.length = 9 := by rfl
          cases f2 with
          | zero =>
              have : s.length = 0 := Nat.le_zero.mp h2
              omega
          | succ f2 =>
              simp only [trimAux, hd]
              exact ih f2 s2 (by omega) (by omega)

/-- Unfolding equation: when the path still starts with the pattern, one
more occurrence is stripped. -/
theorem trimStartMatches_cons (s s2 : List Char) (hd : dropPre personsPre s = some s2) :
    trimStartMatches s = trimStartMatches s2 := by
  have hlen := dropPre_length personsPre s s2 hd
  have h9 : personsPre.length = 9 := by rfl
  unfold trimStartMatches
  have hpos : s.length = 9 + s2.length := by omega
  rw [hpos]
  simp only [Nat.add_comm 9 s2.length, trimAux, hd]
  exact trimAux_congr (s2.length + 8) s2.length s2 (by omega) (by omega)

/-- Unfolding equation: when the path does not start with the pattern it is
returned unchanged. -/
theorem trimStartMatches_nil (s : List Char) (hd : dropPre personsPre s = none) :
    trimStartMatches s = s := by
  unfold trimStartMatches
  cases hs : s.length with
  | zero => rfl
  | succ n => simp [trimAux, hd]

/-- Adequacy of the fuel: the result of `trimStartMatches` no longer starts
with the pattern, i.e. the loop ran to its fixpoint. -/
theorem trimStartMatches_stripped (s : List Char) :
    dropPre personsPre (trimStartMatches s) = none := by
  have key : ∀ f s, s.length ≤ f → dropPre personsPre (trimAux f s) = none := by
    intro f
    induction f with
    | zero =>
        intro s h1
        have hs : s = [] := List.eq_nil_of_length_eq_zero (Nat.le_zero.mp h1)
        subst hs
        simp [trimAux, dropPre, personsPre]
    | succ f ih =>
        intro s h1
        cases hd : dropPre personsPre s with
        | none => simp [trimAux, hd]
        | some s2 =>
            have hlen := dropPre_length personsPre s s2 hd
            have h9 : personsPre.length = 9 := by rfl
            simp only [trimAux, hd]
            exact ih s2 (by omega)
  exact key s.length s le_rfl

theorem parseU64_slash (s : List Char) (h : '/' ∈ s) : parseU64 s = none := by
  unfold parseU64
  by_cases hh : s.head? = some '+'
  · have htail : '/' ∈ s.tail := by
      cases s with
      | nil => exact absurd h (List.not_mem_nil _)
      | cons c cs =>
          simp only [List.head?] at hh
          have hc : c = '+' := by
            injection hh
          rcases List.mem_cons.mp h with he | hm
          · rw [hc] at he
            exact absurd he (by decide)
          · exact hm
    have hall : ¬ (s.tail.all fun c => c.isDigit) = true := by
      intro hall
      have h2 := List.all_eq_true.mp hall '/' htail
      exact absurd h2 (by decide)
    rw [if_pos hh, if_neg (fun hc => hall hc.2)]
  · have hall : ¬ (s.all fun c => c.isDigit) = true := by
      intro hall
      have h2 := List.all_eq_true.mp hall '/' h
      exact absurd h2 (by decide)
    rw [if_neg hh, if_neg (fun hc => hall hc.2)]

theorem startsWith_ne_collection (path : String) (hpre : startsWithPersons path = true) :
    path ≠ "/persons" := by
  intro h
  subst h
  exact absurd hpre (by decide)

/-! ### The claims -/

/-- C1: a successful create (`POST /persons`) assigns the new record the
identifier `1` when the store is empty and `max(existing ids) + 1` when the
store is non-empty, responding 200 with the stored record. -/
theorem create_assigns_max_plus_one (db : Store) (draft : Person) :
    (router ⟨Method.POST, "/persons", some draft⟩ db).1 =
      ⟨200, RespBody.person
        { draft with id := if db = [] then 1 else Store.maxKey db + 1 }⟩ := by
  have hif : nextId db = if db = [] then 1 else Store.maxKey db + 1 := by
    cases db with
    | nil => rfl
    | cons hd rest => simp [nextId, Store.isEmpty]
  simp [router, allocateAndInsert, hif]

/-- C2, counterexample: the source strips the `/persons/` prefix with
`trim_start_matches`, which removes it repeatedly rather than once.  On the
path `/persons//persons/1` the remainder after stripping the prefix once is
`/persons/1`, which contains a slash, so the claim mandates a 400 response;
the code strips again, parses `1`, and answers 200 with the stored
record. -/
theorem path_strip_once_counterexample :
    dropPre personsPre "/persons//persons/1".data = some "/persons/1".data ∧
    '/' ∈ "/persons/1".data ∧
    (router ⟨Method.GET, "/persons//persons/1", none⟩ dbAda).1 =
      ⟨200, RespBody.person ⟨1, "Ada", 37⟩⟩ ∧
    (router ⟨Method.GET, "/persons//persons/1", none⟩ dbAda).1.status ≠ 400 := by
  refine ⟨by decide, by decide, by decide, by decide⟩

/-- C2, amended: for every GET, PUT, or DELETE request whose path starts
with `/persons/`, the identifier token is the remainder after repeatedly
stripping that prefix (`trim_start_matches` semantics); whenever that token
fails the numeric parse — in particular whenever it still contains a slash —
the response is 400 and the store is unchanged. -/
theorem item_path_token_repeated_strip (req : Request) (db : Store)
    (hm : req.method = Method.GET ∨ req.method = Method.PUT ∨ req.method = Method.DELETE)
    (hpre : startsWithPersons req.path = true)
    (hbad : parseU64 (idToken req.path) = none) :
    (router req db).1 = ⟨400, RespBody.text "ID inválido"⟩ ∧
    (router req db).2 = db ∧
    (∀ s : List Char, '/' ∈ s → parseU64 s = none) := by
  have hne := startsWith_ne_collection req.path hpre
  obtain ⟨m, path, body⟩ := req
  refine ⟨?_, ?_, fun s hs => parseU64_slash s hs⟩ <;>
    rcases hm with h | h | h <;>
    (simp only at h; subst h) <;>
    simp [router, hne, hpre, hbad]

/-- Witness for the amended C2 at a concrete input: `GET /persons/1/2`
yields 400 `ID inválido`. -/
theorem item_path_token_repeated_strip_witness :
    (startsWithPersons "/persons/1/2" = true) ∧
    (parseU64 (idToken "/persons/1/2") = none) ∧
    (router ⟨Method.GET, "/persons/1/2", none⟩ dbAda).1 =
      ⟨400, RespBody.text "ID inválido"⟩ :=
  ⟨by decide, by decide,
   (item_path_token_repeated_strip ⟨Method.GET, "/persons/1/2", none⟩ dbAda
      (Or.inl rfl) (by decide) (by decide)).1⟩

/-- C3: after any sequence of create, update, and delete operations starting
from the empty store, every entry's key equals its value's `id` field, and
every key is strictly positive (the key `0` is never present). -/
theorem store_invariant_key_eq_id (ops : List Op) (kp : Nat × Person)
    (h : kp ∈ runOps ops) : kp.2.id = kp.1 ∧ 0 < kp.1 := by
  have hg : goodStore (runOps ops) := goodStore_foldl ops [] goodStore_nil
  exact hg kp h

/-- Witness for C3: a single create yields the entry `(1, {1, "Ada", 37})`,
whose key equals its id and is positive. -/
theorem store_invariant_key_eq_id_witness :
    (((1 : Nat), (⟨1, "Ada", 37⟩ : Person)) ∈ runOps [Op.create wAda]) ∧
    ((⟨1, "Ada", 37⟩ : Person).id = 1 ∧ 0 < 1) :=
  ⟨by decide,
   store_invariant_key_eq_id [Op.create wAda] (1, ⟨1, "Ada", 37⟩) (by decide)⟩

/-- C4: a sequence of serial creates on an initially empty store returns as
many records as inputs; the `i`-th returned record (0-based) carries id
`i + 1` and the name and age of the `i`-th input. -/
theorem serial_creates_ids (ps : List Person) (i : Nat) (hi : i < ps.length) :
    (runCreates [] ps).1.length = ps.length ∧
    ∃ p q, ps.get? i = some p ∧ (runCreates [] ps).1.get? i = some q ∧
      q.id = i + 1 ∧ q.name = p.name ∧ q.age = p.age := by
  have hms : MaxSt [] 0 := Or.inl ⟨rfl, rfl⟩
  have heq := runCreates_eq_idsFrom ps [] 0 hms
  have hp : ps.get? i = some (ps.get ⟨i, hi⟩) := List.get?_eq_get hi
  have hq := idsFrom_get? ps 0 i (ps.get ⟨i, hi⟩) hp
  refine ⟨by rw [heq]; exact idsFrom_length ps 0,
          ps.get ⟨i, hi⟩, { ps.get ⟨i, hi⟩ with id := i + 1 }, hp, ?_, rfl, rfl, rfl⟩
  rw [heq]
  simpa using hq

/-- Witness for C4: two concrete creates; the second (index 1) returns id 2
with the input's name and age. -/
theorem serial_creates_ids_witness :
    (1 < ([wAda, ⟨9, "B", 1⟩] : List Person).length) ∧
    ((runCreates [] [wAda, ⟨9, "B", 1⟩]).1.length = ([wAda, ⟨9, "B", 1⟩] : List Person).length ∧
     ∃ p q, ([wAda, ⟨9, "B", 1⟩] : List Person).get? 1 = some p ∧
       (runCreates [] [wAda, ⟨9, "B", 1⟩]).1.get? 1 = some q ∧
       q.id = 1 + 1 ∧ q.name = p.name ∧ q.age = p.age) :=
  ⟨by decide, serial_creates_ids [wAda, ⟨9, "B", 1⟩] 1 (by decide)⟩

/-- C5: `PUT /persons/{id}` on a present id stores and returns the record
with `name` and `age` taken from the request body and `id` unchanged (the
body's id field is ignored), with status 200; on an absent id it responds
404 and leaves the store exactly as it was. -/
theorem update_semantics (db : Store) (path : String) (idv : Nat) (patch : Person)
    (hpre : startsWithPersons path = true)
    (hid : parseU64 (idToken path) = some idv) :
    (∀ old, db.get? idv = some old →
      router ⟨Method.PUT, path, some patch⟩ db =
        (⟨200, RespBody.person { old with name := patch.name, age := patch.age }⟩,
         db.insert idv { old with name := patch.name, age := patch.age }) ∧
      { old with name := patch.name, age := patch.age }.id = old.id ∧
      (db.insert idv { old with name := patch.name, age := patch.age }).get? idv
        = some { old with name := patch.name, age := patch.age }) ∧
    (db.get? idv = none →
      router ⟨Method.PUT, path, some patch⟩ db =
        (⟨404, RespBody.text "Pessoa não encontrada"⟩, db)) := by
  have hne := startsWith_ne_collection path hpre
  constructor
  · intro old hold
    refine ⟨?_, rfl, get?_insert_self db idv _⟩
    simp [router, hne, hpre, hid, storeUpdate, hold]
  · intro hnone
    simp [router, hne, hpre, hid, storeUpdate, hnone]

/-- Witness for C5: updating id 1 with body `{555, "Ada L.", 38}` returns
`{1, "Ada L.", 38}` — the stored id survives, the body's id is ignored. -/
theorem update_semantics_witness :
    (startsWithPersons "/persons/1" = true) ∧
    (parseU64 (idToken "/persons/1") = some 1) ∧
    (dbAda.get? 1 = some ⟨1, "Ada", 37⟩) ∧
    router ⟨Method.PUT, "/persons/1", some ⟨555, "Ada L.", 38⟩⟩ dbAda =
      (⟨200, RespBody.person ⟨1, "Ada L.", 38⟩⟩, dbAda.insert 1 ⟨1, "Ada L.", 38⟩) :=
  ⟨by decide, by decide, by decide,
   ((update_semantics dbAda "/persons/1" 1 ⟨555, "Ada L.", 38⟩ (by decide) (by decide)).1
      ⟨1, "Ada", 37⟩ (by decide)).1⟩

/-- C6: deleting a record whose id is strictly below the current maximum
never lets a subsequent sequence of creates assign that id again; and in the
literal scenario — create ids 1, 2, 3, delete 2, create (id 4), delete 4,
create — the last create reassigns the previously deleted maximum id 4. -/
theorem delete_nonmax_no_reuse (db : Store) (d : Nat) (p0 : Person) (ps : List Person)
    (hmem : db.get? d = some p0) (hlt : d < Store.maxKey db) :
    (∀ r ∈ (runCreates (storeDelete db d).2 ps).1, r.id ≠ d) ∧
    ((runCreates [] [pIn 1, pIn 2, pIn 3]).1.map Person.id = [1, 2, 3] ∧
     s6r4.1.id = 4 ∧ s6r5.1.id = 4) := by
  constructor
  · intro r hr
    have hdel : (storeDelete db d).2 = Store.eraseKey d db := by
      simp [storeDelete, hmem]
    have hmax : Store.maxKey (Store.eraseKey d db) = Store.maxKey db :=
      maxKey_eraseKey_of_lt db d hlt
    have hne : Store.eraseKey d db ≠ [] := eraseKey_ne_nil_of_lt db d hlt
    rw [hdel] at hr
    have hgt := runCreates_id_gt ps (Store.eraseKey d db) hne r hr
    rw [hmax] at hgt
    omega
  · exact ⟨by decide, by decide, by decide⟩

/-- Witness for C6: in the two-record store `{1, 2}`, after deleting the
non-maximum id 1 a further create never returns id 1. -/
theorem delete_nonmax_no_reuse_witness :
    (dbTwo.get? 1 = some ⟨1, "Ada", 37⟩) ∧ (1 < Store.maxKey dbTwo) ∧
    (∀ r ∈ (runCreates (storeDelete dbTwo 1).2 [pIn 9]).1, r.id ≠ 1) :=
  ⟨by decide, by decide,
   (delete_nonmax_no_reuse dbTwo 1 ⟨1, "Ada", 37⟩ [pIn 9] (by decide) (by decide)).1⟩

/-- C7: the response status and diagnostic body follow the fixed mapping of
the source — `JSON inválido` (400) for an undecodable body on `POST /persons`
or on a `PUT` item path with a well-formed id; `ID inválido` (400) for an id
token that fails the u64 parse on an item path; `Pessoa não encontrada`
(404) for a parsed but absent id; `Rota não encontrada` (404) for any
unrecognized method/path; `Pessoa removida` (200) for a successful
delete. -/
theorem response_status_mapping (req : Request) (db : Store) :
    (req.method = Method.POST → req.path = "/persons" → req.body = none →
      (router req db).1 = ⟨400, RespBody.text "JSON inválido"⟩) ∧
    (∀ idv, req.method = Method.PUT → startsWithPersons req.path = true →
      parseU64 (idToken req.path) = some idv → req.body = none →
      (router req db).1 = ⟨400, RespBody.text "JSON inválido"⟩) ∧
    ((req.method = Method.GET ∨ req.method = Method.PUT ∨ req.method = Method.DELETE) →
      startsWithPersons req.path = true → parseU64 (idToken req.path) = none →
      (router req db).1 = ⟨400, RespBody.text "ID inválido"⟩) ∧
    (∀ idv, startsWithPersons req.path = true →
      parseU64 (idToken req.path) = some idv → db.get? idv = none →
      (req.method = Method.GET ∨ req.method = Method.DELETE ∨
        (req.method = Method.PUT ∧ req.body ≠ none)) →
      (router req db).1 = ⟨404, RespBody.text "Pessoa não encontrada"⟩) ∧
    (¬ (req.method = Method.POST ∧ req.path = "/persons") →
     ¬ (req.method = Method.GET ∧ req.path = "/persons") →
     ¬ ((req.method = Method.GET ∨ req.method = Method.PUT ∨ req.method = Method.DELETE) ∧
        startsWithPersons req.path = true) →
      (router req db).1 = ⟨404, RespBody.text "Rota não encontrada"⟩) ∧
    (∀ idv p, req.method = Method.DELETE → startsWithPersons req.path = true →
      parseU64 (idToken req.path) = some idv → db.get? idv = some p →
      (router req db).1 = ⟨200, RespBody.text "Pessoa removida"⟩) := by
  obtain ⟨m, path, body⟩ := req
  refine ⟨?_, ?_, ?_, ?_, ?_, ?_⟩
  · intro h1 h2 h3
    simp only at h1 h2 h3
    subst h1; subst h2; subst h3
    simp [router]
  · intro idv h1 h2 h3 h4
    simp only at h1 h2 h3 h4
    subst h1; subst h4
    have hne := startsWith_ne_collection path h2
    simp [router, hne, h2, h3]
  · intro hm h2 h3
    simp only at hm h2 h3
    have hne := startsWith_ne_collection path h2
    rcases hm with h | h | h <;> subst h <;> simp [router, hne, h2, h3]
  · intro idv h2 h3 h4 h5
    simp only at h2 h3 h5
    have hne := startsWith_ne_collection path h2
    rcases h5 with h | h | ⟨h, hb⟩
    · subst h
      simp [router, hne, h2, h3, h4]
    · subst h
      simp [router, hne, h2, h3, storeDelete, h4]
    · subst h
      cases hbody : body with
      | none => exact absurd hbody hb
      | some patch =>
          subst hbody
          simp [router, hne, h2, h3, storeUpdate, h4]
  · intro hn1 hn2 hn3
    simp only at hn1 hn2 hn3
    by_cases hsw : startsWithPersons path = true
    · have hmne : m ≠ Method.GET ∧ m ≠ Method.PUT ∧ m ≠ Method.DELETE := by
        refine ⟨?_, ?_, ?_⟩ <;> intro h <;> exact hn3 ⟨by simp [h], hsw⟩
      obtain ⟨hg, hp, hd⟩ := hmne
      have hpost : ¬ (m = Method.POST ∧ path = "/persons") := hn1
      cases m with
      | GET => exact absurd rfl hg
      | PUT => exact absurd rfl hp
      | DELETE => exact absurd rfl hd
      | POST =>
          have hpath : path ≠ "/persons" := fun h => hn1 ⟨rfl, h⟩
          simp [router, hpath]
      | OTHER => simp [router]
    · have hsw2 : startsWithPersons path = false := by
        cases hb : startsWithPersons path with
        | true => exact absurd hb hsw
        | false => rfl
      cases m with
      | POST =>
          have hpath : path ≠ "/persons" := fun h => hn1 ⟨rfl, h⟩
          simp [router, hpath, hsw2]
      | GET =>
          have hpath : path ≠ "/persons" := fun h => hn2 ⟨rfl, h⟩
          simp [router, hpath, hsw2]
      | PUT => simp [router, hsw2]
      | DELETE => simp [router, hsw2]
      | OTHER => simp [router, hsw2]
  · intro idv p h1 h2 h3 h4
    simp only at h1 h2 h3
    subst h1
    have hne := startsWith_ne_collection path h2
    simp [router, hne, h2, h3, storeDelete, h4]

/-- Witness for C7: a successful delete answers 200 `Pessoa removida`, and a
request for an unknown route answers 404 `Rota não encontrada`. -/
theorem response_status_mapping_witness :
    ((router ⟨Method.DELETE, "/persons/1", none⟩ dbAda).1 =
      ⟨200, RespBody.text "Pessoa removida"⟩) ∧
    ((router ⟨Method.PUT, "/other", none⟩ dbAda).1 =
      ⟨404, RespBody.text "Rota não encontrada"⟩) :=
  ⟨(response_status_mapping ⟨Method.DELETE, "/persons/1", none⟩ dbAda).2.2.2.2.2
      1 ⟨1, "Ada", 37⟩ rfl (by decide) (by decide) (by decide),
   (response_status_mapping ⟨Method.PUT, "/other", none⟩ dbAda).2.2.2.2.1
      (by decide) (by decide) (by decide)⟩

/-- C8: after a successful create, a `GET /persons/{id}` using the id that
the create returned answers 200 with exactly the record the create returned,
leaving the store untouched. -/
theorem create_then_get_roundtrip (db : Store) (draft : Person) (path : String)
    (hpre : startsWithPersons path = true)
    (hid : parseU64 (idToken path) = some (allocateAndInsert db draft).1.id) :
    (router ⟨Method.POST, "/persons", some draft⟩ db).1 =
      ⟨200, RespBody.person (allocateAndInsert db draft).1⟩ ∧
    router ⟨Method.GET, path, none⟩ (router ⟨Method.POST, "/persons", some draft⟩ db).2 =
      (⟨200, RespBody.person (allocateAndInsert db draft).1⟩,
       (router ⟨Method.POST, "/persons", some draft⟩ db).2) := by
  have hpost : router ⟨Method.POST, "/persons", some draft⟩ db =
      (⟨200, RespBody.person (allocateAndInsert db draft).1⟩, (allocateAndInsert db draft).2) := by
    simp [router]
  have hne := startsWith_ne_collection path hpre
  have hget : (allocateAndInsert db draft).2.get? (allocateAndInsert db draft).1.id
      = some (allocateAndInsert db draft).1 :=
    get?_insert_self db (nextId db) _
  refine ⟨by rw [hpost], ?_⟩
  rw [hpost]
  simp [router, hne, hpre, hid, hget]

/-- Witness for C8: create on the empty store returns id 1, and
`GET /persons/1` immediately after returns the same record. -/
theorem create_then_get_roundtrip_witness :
    (startsWithPersons "/persons/1" = true) ∧
    (parseU64 (idToken "/persons/1") = some (allocateAndInsert [] wAda).1.id) ∧
    router ⟨Method.GET, "/persons/1", none⟩
        (router ⟨Method.POST, "/persons", some wAda⟩ []).2 =
      (⟨200, RespBody.person (allocateAndInsert [] wAda).1⟩,
       (router ⟨Method.POST, "/persons", some wAda⟩ []).2) :=
  ⟨by decide, by decide,
   (create_then_get_roundtrip [] wAda "/persons/1" (by decide) (by decide)).2⟩

/-- C9: a `POST /persons` or `PUT /persons/{id}` request whose body fails
JSON decoding answers 400 and leaves the store exactly as it was. -/
theorem bad_body_leaves_store (req : Request) (db : Store)
    (hbody : req.body = none)
    (hroute : (req.method = Method.POST ∧ req.path = "/persons") ∨
              (req.method = Method.PUT ∧ startsWithPersons req.path = true)) :
    (router req db).1.status = 400 ∧ (router req db).2 = db := by
  obtain ⟨m, path, body⟩ := req
  simp only at hbody
  subst hbody
  rcases hroute with ⟨h1, h2⟩ | ⟨h1, h2⟩ <;> simp only at h1 h2 <;> subst h1
  · subst h2
    simp [router]
  · have hne := startsWith_ne_collection path h2
    cases hp : parseU64 (idToken path) with
    | none => simp [router, hne, h2, hp]
    | some idv => simp [router, hne, h2, hp]

/-- Witness for C9: an undecodable body on `POST /persons` leaves the
one-record store unchanged and answers 400. -/
theorem bad_body_leaves_store_witness :
    ((⟨Method.POST, "/persons", none⟩ : Request).body = none) ∧
    ((router ⟨Method.POST, "/persons", none⟩ dbAda).1.status = 400 ∧
     (router ⟨Method.POST, "/persons", none⟩ dbAda).2 = dbAda) :=
  ⟨rfl, bad_body_leaves_store ⟨Method.POST, "/persons", none⟩ dbAda rfl
          (Or.inl ⟨rfl, rfl⟩)⟩

/-- C10: a successful update or delete leaves every entry whose key differs
from the targeted id exactly as it was, and update preserves the set of
present keys (it inserts no key and removes none). -/
theorem update_delete_frame (db : Store) (idv : Nat) (patch : Person) (p0 : Person)
    (hpresent : db.get? idv = some p0) :
    (∀ k, k ≠ idv → (storeUpdate db idv patch).2.get? k = db.get? k) ∧
    (∀ k, ((storeUpdate db idv patch).2.get? k).isSome = (db.get? k).isSome) ∧
    (∀ k, k ≠ idv → (storeDelete db idv).2.get? k = db.get? k) := by
  have hup : (storeUpdate db idv patch).2 =
      db.insert idv { p0 with name := patch.name, age := patch.age } := by
    simp [storeUpdate, hpresent]
  have hdel : (storeDelete db idv).2 = Store.eraseKey idv db := by
    simp [storeDelete, hpresent]
  refine ⟨?_, ?_, ?_⟩
  · intro k hk
    rw [hup, get?_insert_ne db idv k _ hk]
  · intro k
    by_cases hk : k = idv
    · subst hk
      rw [hup, get?_insert_self, hpresent]
      rfl
    · rw [hup, get?_insert_ne db idv k _ hk]
  · intro k hk
    rw [hdel, get?_eraseKey_ne db idv k hk]

/-- Witness for C10: updating and deleting id 1 in the two-record store
leaves the entry with key 2 untouched. -/
theorem update_delete_frame_witness :
    (dbTwo.get? 1 = some ⟨1, "Ada", 37⟩) ∧
    ((storeUpdate dbTwo 1 wAda).2.get? 2 = dbTwo.get? 2 ∧
     (storeDelete dbTwo 1).2.get? 2 = dbTwo.get? 2) :=
  ⟨by decide,
   (update_delete_frame dbTwo 1 wAda ⟨1, "Ada", 37⟩ (by decide)).1 2 (by decide),
   (update_delete_frame dbTwo 1 wAda ⟨1, "Ada", 37⟩ (by decide)).2.2 2 (by decide)⟩
